import Mathlib

/-!
Verification development for the yt-to-bili time-aligned speech assembly
pipeline.  The Python sources (`app.py`, `tts_runner.py`, `worker_utils.py`)
are shallowly embedded as executable Lean definitions:

* the Cue Segmenter `vtt_to_sentences` (app.py, `translate_subtitles_from_vtt`)
  is embedded character-by-character over `List Char`;
* the Batch Planner (app.py lines 960-977) as a fold over paragraph strings;
* the translation collection loop (app.py lines 1013-1036);
* the retry loop `text_to_speech` (worker_utils.py lines 8-39) parametrised by
  an outcome trace and a jitter trace;
* the Overlap Resolver and sequential Timeline Mixer of
  `tts_runner.process_tts` (lines 174-229) over exact rationals / naturals.

Machine text is modelled as `List Char`; Python `str.lower`, `str.strip`,
`str.split` and the concrete regexes of the source are implemented directly.
-/

/-! ## Character-level utilities shared by the Cue Segmenter -/

/-- Characters stripped from both line ends by `line.strip("﻿\r\n")`. -/
def bomCrLf : List Char := ['﻿', '\r', '\n']

/-- Python `str.strip(chars)`: drop the given characters from both ends. -/
def stripChars (set : List Char) (cs : List Char) : List Char :=
  ((cs.dropWhile (· ∈ set)).reverse.dropWhile (· ∈ set)).reverse

/-- Python `str.strip()` on a token (whitespace from both ends). -/
def trimWs (cs : List Char) : List Char :=
  ((cs.dropWhile Char.isWhitespace).reverse.dropWhile Char.isWhitespace).reverse

/-- Split a character list at every character satisfying `p`; empty pieces are
kept (the separators are dropped). -/
def splitOnPred (p : Char → Bool) (cs : List Char) : List (List Char) :=
  cs.foldr
    (fun c acc =>
      if p c then [] :: acc
      else
        match acc with
        | [] => [[c]]
        | l :: ls => (c :: l) :: ls)
    [[]]

/-- Python `str.splitlines` as used on the VTT text: split at newline
characters.  (A trailing newline yields one extra empty line, which the
segmenter ignores, so the difference to CPython is inert.) -/
def splitNl (cs : List Char) : List (List Char) :=
  splitOnPred (· = '\n') cs

/-- Python `str.split()` with no argument: split on whitespace runs and drop
empty pieces. -/
def pySplit (cs : List Char) : List (List Char) :=
  (splitOnPred (·.isWhitespace) cs).filter (· ≠ [])

/-- The shape `\d{2}:\d{2}:\d{2}\.\d{3}` of a word-level VTT timestamp,
checked on exactly twelve characters. -/
def isTs12 (cs : List Char) : Bool :=
  cs.length = 12 &&
  (cs.getD 0 ' ').isDigit && (cs.getD 1 ' ').isDigit && cs.getD 2 ' ' == ':' &&
  (cs.getD 3 ' ').isDigit && (cs.getD 4 ' ').isDigit && cs.getD 5 ' ' == ':' &&
  (cs.getD 6 ' ').isDigit && (cs.getD 7 ' ').isDigit && cs.getD 8 ' ' == '.' &&
  (cs.getD 9 ' ').isDigit && (cs.getD 10 ' ').isDigit && (cs.getD 11 ' ').isDigit

/-- Match `\d{2}:\d{2}:\d{2}\.\d{3}` at the head of the list, returning the
twelve matched characters and the rest. -/
def matchTs12 (cs : List Char) : Option (List Char × List Char) :=
  if isTs12 (cs.take 12) then some (cs.take 12, cs.drop 12) else none

/-- The cue-header regex
`^(\d{2}:\d{2}:\d{2}\.\d{3})\s*--> (\d{2}:\d{2}:\d{2}\.\d{3})` of
`vtt_to_sentences` (`re.match`, so anchored at the line start); returns
capture group 1. -/
def parseCueHeader (cs : List Char) : Option (List Char) :=
  match matchTs12 cs with
  | none => none
  | some (ts, rest) =>
    match (rest.dropWhile Char.isWhitespace) with
    | '-' :: '-' :: '>' :: ' ' :: rest2 =>
      match matchTs12 rest2 with
      | some _ => some ts
      | none => none
    | _ => none

/-- Match the word-timestamp tag `<(\d{2}:\d{2}:\d{2}\.\d{3})>` at the head of
the list: returns the twelve timestamp characters and the remainder after the
closing `>` (the whole tag is fourteen characters long). -/
def matchTsTag (cs : List Char) : Option (List Char × List Char) :=
  if cs.take 1 = ['<'] ∧ isTs12 ((cs.drop 1).take 12) ∧ (cs.drop 13).take 1 = ['>']
  then some ((cs.drop 1).take 12, cs.drop 14)
  else none

/-- `TS_TAG_RE.search`: does a word-timestamp tag occur anywhere in the line? -/
def tsSearch : List Char → Bool
  | [] => false
  | c :: cs => (matchTsTag (c :: cs)).isSome || tsSearch cs

/-- One step of `TS_TAG_RE.sub(lambda mm: f" [[TS:{mm.group(1)}]] ", s)`:
replace every timestamp tag by the space-padded `[[TS:...]]` sentinel.  The
fuel starts at the list length and each step consumes at least one character,
so the fuel-exhausted branch is unreachable. -/
def tsSubstGo : ℕ → List Char → List Char
  | 0, cs => cs
  | _ + 1, [] => []
  | fuel + 1, c :: cs =>
    match matchTsTag (c :: cs) with
    | some (ts, rest) =>
      ( " [[TS:".toList ) ++ ts ++ ( "]] ".toList ) ++ tsSubstGo fuel rest
    | none => c :: tsSubstGo fuel cs

def tsSubst (cs : List Char) : List Char := tsSubstGo cs.length cs

/-- Length (in characters) of a match of the style-tag regex
`</?c(?:\.[^>]*)?>` (case-insensitive) at the head of the list, if any. -/
def matchCTagLen (cs : List Char) : Option ℕ :=
  if cs.take 1 ≠ ['<'] then none
  else
    let slashLen : ℕ := if (cs.drop 1).take 1 = ['/'] then 1 else 0
    let afterSlash := cs.drop (1 + slashLen)
    if afterSlash.take 1 = ['c'] ∨ afterSlash.take 1 = ['C'] then
      let rest := afterSlash.drop 1
      if rest.take 1 = ['>'] then some (1 + slashLen + 1 + 1)
      else if rest.take 1 = ['.'] then
        let body := (rest.drop 1).takeWhile (· ≠ '>')
        if ((rest.drop 1).drop body.length).take 1 = ['>'] then
          some (1 + slashLen + 1 + 1 + body.length + 1)
        else none
      else none
    else none

/-- `C_TAG_RE.sub("", line)`: delete every style tag.  Fuel as in
`tsSubstGo`. -/
def stripCTagsGo : ℕ → List Char → List Char
  | 0, cs => cs
  | _ + 1, [] => []
  | fuel + 1, c :: cs =>
    match matchCTagLen (c :: cs) with
    | some n => stripCTagsGo fuel ((c :: cs).drop n)
    | none => c :: stripCTagsGo fuel cs

def stripCTags (cs : List Char) : List Char := stripCTagsGo cs.length cs

/-! ## Text normalisation applied at sentence flush -/

/-- `re.sub(r"\s+([,.;!?])", r"\1", text)` (and, with `[')']`, the third
substitution `re.sub(r"\s+\)", ")", text)`): delete every whitespace run that
is immediately followed by one of the given punctuation characters. -/
def rmWsBefore (punct : List Char) : List Char → List Char
  | [] => []
  | c :: cs =>
    let r := rmWsBefore punct cs
    if c.isWhitespace ∧ (r.headD ' ') ∈ punct ∧ r ≠ [] then r else c :: r

/-- `re.sub(r"\(\s+", "(", text)`: delete whitespace runs directly after an
opening parenthesis.  The Boolean state records that we are inside such a
run. -/
def rmWsAfterParenGo : Bool → List Char → List Char
  | _, [] => []
  | inWs, c :: cs =>
    if inWs ∧ c.isWhitespace then rmWsAfterParenGo true cs
    else c :: rmWsAfterParenGo (c = '(') cs

/-- The three normalisation substitutions of `flush_sentence`, in source
order. -/
def normalizeText (cs : List Char) : List Char :=
  rmWsBefore [')']
    (rmWsAfterParenGo false
      (rmWsBefore [',', '.', ';', '!', '?'] cs))

/-! ## The Cue Segmenter state machine (`vtt_to_sentences`) -/

/-- A flushed sentence: its resolved start timestamp and the word tokens in
order.  The source stores the rendered string `f"({start_ts}) {text}"`; we
keep the words and render with `sentenceLine`, which makes word-preservation
statements direct while `sentenceLine` reproduces the source's string. -/
structure Sentence where
  startTs : List Char
  words : List (List Char)
deriving DecidableEq

/-- The mutable state of the `vtt_to_sentences` loop. -/
structure SegState where
  sentences : List Sentence
  currentWords : List (List Char)
  currentStart : Option (List Char)
  effectiveTime : Option (List Char)
  cueStart : Option (List Char)
deriving DecidableEq

def initSegState : SegState := ⟨[], [], none, none, none⟩

/-- `flush_sentence`: emit the pending words (if any) with the fallback
timestamp `current_sentence_start_time or cue_start_time or effective_time
or "00:00:00.000"`. -/
def flushSentence (st : SegState) : SegState :=
  if st.currentWords = [] then st
  else
    let ts := (((st.currentStart.orElse fun _ => st.cueStart).orElse
        fun _ => st.effectiveTime).getD ( "00:00:00.000".toList ))
    { st with
      sentences := st.sentences ++ [⟨ts, st.currentWords⟩]
      currentWords := []
      currentStart := none }

/-- Is the token the `[[TS:...]]` sentinel produced by `tsSubst`?
(`token.startswith("[[TS:") and token.endswith("]]")`). -/
def isTsSentinel (tok : List Char) : Bool :=
  List.isPrefixOf ( "[[TS:".toList ) tok && List.isSuffixOf ( "]]".toList ) tok

/-- `token[5:-2]`: the timestamp carried by a sentinel token. -/
def sentinelTs (tok : List Char) : List Char :=
  ((tok.drop 5).dropLast).dropLast

/-- Does the word end with one of the sentence-terminal characters
`SENTENCE_END = ".!?"` of the source? -/
def isSentenceEnd (w : List Char) : Bool :=
  match w.getLast? with
  | some c => c == '.' || c == '!' || c == '?'
  | none => false

/-- The body of the token loop of `vtt_to_sentences`. -/
def processToken (st : SegState) (tok : List Char) : SegState :=
  if isTsSentinel tok then
    { st with effectiveTime := some (sentinelTs tok) }
  else
    let word := trimWs tok
    if word = [] then st
    else
      let st1 :=
        if st.currentStart.isNone then
          { st with currentStart := st.effectiveTime.orElse fun _ => st.cueStart }
        else st
      let st2 := { st1 with currentWords := st1.currentWords ++ [word] }
      if isSentenceEnd word then flushSentence st2 else st2

/-- The body of the line loop of `vtt_to_sentences`: strip BOM/CR/LF, try the
cue header, skip lines without a word-timestamp tag, otherwise strip style
tags, replace timestamp tags by sentinels, split into tokens and fold
`processToken`. -/
def processLine (st : SegState) (raw : List Char) : SegState :=
  let line := stripChars bomCrLf raw
  match parseCueHeader line with
  | some ts => { st with cueStart := some ts, effectiveTime := some ts }
  | none =>
    if tsSearch line then
      (pySplit (tsSubst (stripCTags line))).foldl processToken st
    else st

/-- The state after the whole input has been traversed and the final
`flush_sentence()` has run. -/
def segRun (input : List Char) : SegState :=
  flushSentence ((splitNl input).foldl processLine initSegState)

/-- `f"({start_ts}) {text}"` with `text` the single-space join of the words
run through the normalisation substitutions. -/
def sentenceLine (s : Sentence) : List Char :=
  ( "(".toList ) ++ s.startTs ++ ( ") ".toList ) ++
    normalizeText (List.intercalate [' '] s.words)

/-- `vtt_to_sentences`: the emitted sentence strings, in order. -/
def vtt_to_sentences (input : List Char) : List (List Char) :=
  (segRun input).sentences.map sentenceLine

/-- String-level wrapper used in concrete scenarios. -/
def vttSentencesStr (input : String) : List String :=
  (vtt_to_sentences input.toList).map List.asString

/-- The writer loop `f.write(seg + "\n\n")`: the text of the segmenter's
output file. -/
def renderOutput (sentences : List (List Char)) : List Char :=
  (sentences.map (fun s => s ++ ['\n', '\n'])).flatten

/-! ## The Batch Planner (app.py, `translate_subtitles_from_vtt`, lines 960-977) -/

/-- The accumulator of the batching loop: closed batches, the open batch and
its running character count `current_char_count`. -/
structure BatchState where
  batches : List (List String)
  current : List String
  charCount : ℕ
deriving DecidableEq

/-- One iteration of the batching loop: close the open batch when it already
holds `segSize` sentences, or when adding the paragraph would push a
non-empty batch past 2000 characters; otherwise append the paragraph. -/
def batchStep (segSize : ℕ) (bs : BatchState) (p : String) : BatchState :=
  if segSize ≤ bs.current.length ∨ (2000 < bs.charCount + p.length ∧ bs.current ≠ []) then
    { batches := bs.batches ++ [bs.current], current := [p], charCount := p.length }
  else
    { bs with current := bs.current ++ [p], charCount := bs.charCount + p.length }

/-- The whole batching pass, including the final `if current_batch:` push. -/
def planBatches (segSize : ℕ) (paras : List String) : List (List String) :=
  let bs := paras.foldl (batchStep segSize) ⟨[], [], 0⟩
  if bs.current ≠ [] then bs.batches ++ [bs.current] else bs.batches

/-- `"\n".join(batch)`: the serialized translation units. -/
def batchedParagraphs (segSize : ℕ) (paras : List String) : List String :=
  (planBatches segSize paras).map (String.intercalate "\n")

/-- Total character count of a batch as tracked by the source
(`current_char_count`, the sum of sentence lengths). -/
def batchChars (b : List String) : ℕ := (b.map String.length).sum

/-! ## Translation collection (app.py, lines 1013-1036) -/

/-- Python `str.replace`, character-level: replace every non-overlapping
occurrence of `pat`, scanning left to right.  (The patterns used below are
all non-empty; an empty pattern leaves the string unchanged here.)  Fuel as
in `tsSubstGo`. -/
def pyReplaceGo (pat repl : List Char) : ℕ → List Char → List Char
  | 0, cs => cs
  | _ + 1, [] => []
  | fuel + 1, c :: cs =>
    if pat.isPrefixOf (c :: cs) ∧ pat ≠ [] then
      repl ++ pyReplaceGo pat repl fuel ((c :: cs).drop pat.length)
    else c :: pyReplaceGo pat repl fuel cs

def pyReplace (cs pat repl : List Char) : List Char :=
  pyReplaceGo pat repl cs.length cs

/-- The `.replace(...)` chain cleaning a successful translation. -/
def cleanTranslated (s : String) : String :=
  List.asString
    (pyReplace
      (pyReplace
        (pyReplace
          (pyReplace
            (pyReplace s.data ( "&gt;".toList ) [])
            ( ">>".toList ) [])
          ( "& trash;".toList ) [])
        ( "[音乐]".toList ) [])
      ( "[笑声]".toList ) [])

/-- `translate_batch`: the call either returns cleaned content or, when the
request raised, the string `"Error: " + str(e)`. -/
def translate_batch (outcome : Except String String) : String :=
  match outcome with
  | .error e => "Error: " ++ e
  | .ok content => cleanTranslated content

/-- A result is kept iff it does not start with `"Error:"`
(`if not result.startswith("Error:")`), checked on the character data. -/
def isFailureResult (r : String) : Bool :=
  List.isPrefixOf ( "Error:".toList ) r.data

/-- Did the underlying translation request raise? -/
def isErrorOutcome : Except String String → Bool
  | .error _ => true
  | .ok _ => false

/-- The placeholder written for a failed batch index
(`f"翻译失败的分段 {i+1}"`). -/
def failurePlaceholder (i : ℕ) : String := "翻译失败的分段 " ++ toString (i + 1)

/-- The collection loop `for i in range(len(batched_paragraphs))`, carrying
the running index: one output entry per batch index, placeholder for failed
indices. -/
def translatedParagraphsGo (i : ℕ) : List String → List String
  | [] => []
  | r :: rs =>
    (if isFailureResult r then failurePlaceholder i else r) ::
      translatedParagraphsGo (i + 1) rs

def translatedParagraphs (results : List String) : List String :=
  translatedParagraphsGo 0 results

/-- `failed_count` as accumulated by the same loop. -/
def failedCount (results : List String) : ℕ :=
  (results.filter isFailureResult).length

/-! ## The synthesis retry loop (worker_utils.py, `text_to_speech`) -/

/-- Outcome of one synthesis attempt: success, or an exception whose message
is `str(e)`. -/
inductive TtsOutcome
  | ok
  | err (msg : List Char)
deriving DecidableEq

/-- Python `c.lower()` on ASCII, which is all the classification compares. -/
def lowerChars (cs : List Char) : List Char := cs.map Char.toLower

/-- Python `pat in s`: does `pat` occur contiguously inside the list? -/
def containsSeq (pat : List Char) : List Char → Bool
  | [] => pat.isPrefixOf []
  | c :: cs => pat.isPrefixOf (c :: cs) || containsSeq pat cs

/-- The error classification
`"503" in error_msg or "timeout" in error_msg or "connection" in error_msg`
on the lowered message. -/
def isRetryableMsg (msg : List Char) : Bool :=
  containsSeq ( "503".toList ) (lowerChars msg) ||
  containsSeq ( "timeout".toList ) (lowerChars msg) ||
  containsSeq ( "connection".toList ) (lowerChars msg)

/-- `delay = base_delay * (2 ** (retry_count - 1)) + (random.random() * 0.5)`
with `base_delay = 1`; the jitter trace stands for the sampled
`random.random() * 0.5`. -/
def retryDelay (jitter : ℕ → ℚ) (rc : ℕ) : ℚ := 1 * 2 ^ (rc - 1) + jitter rc

/-- The `while retry_count <= max_retries` loop, parametrised by the attempt
outcomes.  Returns the list of sleeps performed and either the successful
attempt's index or the propagated error message.  The fuel starts at
`maxRetries` and the recursion is guarded by `rc + 1 ≤ maxRetries`, so the
fuel-exhausted branch is unreachable. -/
def ttsGo (outcome : ℕ → TtsOutcome) (jitter : ℕ → ℚ) (maxRetries : ℕ) :
    ℕ → ℕ → List ℚ × Except (List Char) ℕ
  | fuel, rc =>
    let ds : List ℚ := if rc = 0 then [] else [retryDelay jitter rc]
    match outcome rc with
    | .ok => (ds, .ok rc)
    | .err msg =>
      if isRetryableMsg msg then
        if rc + 1 ≤ maxRetries then
          match fuel with
          | 0 => (ds, .error msg)
          | f + 1 =>
            let r := ttsGo outcome jitter maxRetries f (rc + 1)
            (ds ++ r.1, r.2)
        else (ds, .error msg)
      else (ds, .error msg)

/-- `text_to_speech(text, output_file, voice, max_retries)`, abstracted over
the attempt outcomes and jitter samples. -/
def text_to_speech (outcome : ℕ → TtsOutcome) (jitter : ℕ → ℚ)
    (maxRetries : ℕ) : List ℚ × Except (List Char) ℕ :=
  ttsGo outcome jitter maxRetries maxRetries 0

/-! ## Overlap Resolver (tts_runner.py, `process_tts`, lines 174-190) -/

/-- A synthesized clip: its target start offset `time_ms` and its measured
duration `len(audio)` in milliseconds.  Rationals model the exact values of
the Python arithmetic (the division producing the factor is exact here). -/
structure Clip where
  start_ms : ℚ
  duration_ms : ℚ
deriving DecidableEq

/-- `target = next_start - time_ms - 50`. -/
def adjTarget (c next : Clip) : ℚ := next.start_ms - c.start_ms - 50

/-- `factor = min(current_len / target, 2.0)`. -/
def rawFactor (c next : Clip) : ℚ := min (c.duration_ms / adjTarget c next) 2

/-- The resolver marks clip `c` (with successor `next`) for tempo adjustment
iff `end_time > next_start + 100`, `target > 100` and `factor > 1.0`. -/
def needsAdjust (c next : Clip) : Bool :=
  if next.start_ms + 100 < c.start_ms + c.duration_ms then
    if 100 < adjTarget c next then
      decide (1 < rawFactor c next)
    else false
  else false

/-- The tempo factor actually applied to clip `c`: the capped factor when the
clip is marked, `1` otherwise (an unmarked clip is left untouched). -/
def tempoFactor (c next : Clip) : ℚ :=
  if needsAdjust c next then rawFactor c next else 1

/-- The per-clip factors for the whole sorted list: the loop runs over
`processed_audio_segments[:-1]`, so the last clip always keeps factor `1`. -/
def resolveFactors : List Clip → List ℚ
  | [] => []
  | [_] => [1]
  | c :: next :: rest => tempoFactor c next :: resolveFactors (next :: rest)

/-! ## Sequential Timeline Mixer (tts_runner.py, `process_tts`, lines 220-229) -/

/-- Where one clip ends up in the final track: the silence inserted before
it, the absolute offset at which its samples start, and its (unchanged)
length. -/
structure MixEntry where
  silenceBefore : ℕ
  offset : ℕ
  length : ℕ
deriving DecidableEq

/-- The assembly loop: `if start_ms > current_pos` insert silence, then append
the clip in full and advance the cursor.  Returns the final cursor (the
length of `combined_audio`) and the placement of every clip. -/
def mixGo : ℕ → List (ℕ × ℕ) → ℕ × List MixEntry
  | pos, [] => (pos, [])
  | pos, (s, d) :: rest =>
    let sil := if pos < s then s - pos else 0
    let r := mixGo (pos + sil + d) rest
    (r.1, ⟨sil, pos + sil, d⟩ :: r.2)

/-- The length of the final mixed track, starting from cursor `0`. -/
def mixDuration (clips : List (ℕ × ℕ)) : ℕ := (mixGo 0 clips).1

/-- The placements of all clips in the final track. -/
def mixEntries (clips : List (ℕ × ℕ)) : List MixEntry := (mixGo 0 clips).2

/-- The invariant maintained by the batching fold: the running character
count tracks the open batch, the open batch respects the sentence bound, a
multi-sentence open batch stays within 2000 characters, all closed batches
satisfy both bounds, and nothing is lost or reordered. -/
def BatchInv (segSize : ℕ) (done : List String) (bs : BatchState) : Prop :=
  bs.charCount = batchChars bs.current ∧
  bs.current.length ≤ segSize ∧
  (2 ≤ bs.current.length → bs.charCount ≤ 2000) ∧
  (∀ b ∈ bs.batches, b.length ≤ segSize ∧ (2000 < batchChars b → b.length = 1)) ∧
  bs.batches.flatten ++ bs.current = done

/-! ## Derived observation functions used by the statements -/

/-- The word tokens a single loop token contributes: none for a sentinel or
an empty trim, otherwise the trimmed word. -/
def tokenWords (tok : List Char) : List (List Char) :=
  if isTsSentinel tok then []
  else if trimWs tok = [] then [] else [trimWs tok]

/-- The word tokens one input line contributes: none for a cue header or a
line without a word-timestamp tag, otherwise the words of its token split. -/
def wordTokensOfLine (raw : List Char) : List (List Char) :=
  match parseCueHeader (stripChars bomCrLf raw) with
  | some _ => []
  | none =>
    if tsSearch (stripChars bomCrLf raw) then
      ((pySplit (tsSubst (stripCTags (stripChars bomCrLf raw)))).map tokenWords).flatten
    else []

/-- All words held by a segmenter state: those already flushed into
sentences followed by the pending ones. -/
def stateWords (st : SegState) : List (List Char) :=
  (st.sentences.map Sentence.words).flatten ++ st.currentWords

/-! ## Shared helper lemmas -/

/-- `resolveFactors` assigns position `i` the factor computed from clips `i`
and `i + 1`. -/
lemma resolveFactors_getD (clips : List Clip) (i : ℕ) (h : i + 1 < clips.length) :
    (resolveFactors clips).getD i 1 =
      tempoFactor (clips.getD i ⟨0, 0⟩) (clips.getD (i + 1) ⟨0, 0⟩) := by
  induction clips generalizing i with
  | nil => simp at h
  | cons c rest ih =>
    cases rest with
    | nil => simp at h
    | cons nx rest2 =>
      cases i with
      | zero => simp [resolveFactors]
      | succ j =>
        have hj : j + 1 < (nx :: rest2).length := by
          simpa [Nat.succ_lt_succ_iff] using h
        simpa [resolveFactors] using ih j hj

/-- The marking condition spelt out from the nested `if`s of the source. -/
lemma needsAdjust_iff (c nx : Clip) :
    needsAdjust c nx = true ↔
      (nx.start_ms + 100 < c.start_ms + c.duration_ms ∧
       100 < nx.start_ms - c.start_ms - 50 ∧
       1 < min (c.duration_ms / (nx.start_ms - c.start_ms - 50)) 2) := by
  unfold needsAdjust rawFactor
  by_cases h1 : nx.start_ms + 100 < c.start_ms + c.duration_ms <;>
    by_cases h2 : (100 : ℚ) < nx.start_ms - c.start_ms - 50 <;>
      simp [h1, h2, adjTarget]

/-- The cursor of the sequential mixer only moves forward, and each clip's
natural end is covered by the final cursor. -/
lemma mixGo_ge (clips : List (ℕ × ℕ)) :
    ∀ pos : ℕ, pos ≤ (mixGo pos clips).1 ∧
      ∀ c ∈ clips, c.1 + c.2 ≤ (mixGo pos clips).1 := by
  induction clips with
  | nil => simp [mixGo]
  | cons cd rest ih =>
    intro pos
    obtain ⟨s, d⟩ := cd
    have step : (mixGo pos ((s, d) :: rest)).1 =
        (mixGo (pos + (if pos < s then s - pos else 0) + d) rest).1 := by
      simp [mixGo]
    obtain ⟨hpos, hmem⟩ := ih (pos + (if pos < s then s - pos else 0) + d)
    constructor
    · rw [step]; omega
    · intro c hc
      rcases List.mem_cons.mp hc with hc | hc
      · rw [step, hc]
        have : s + d ≤ pos + (if pos < s then s - pos else 0) + d := by
          by_cases hps : pos < s <;> simp [hps] <;> omega
        omega
      · rw [step]; exact hmem c hc

/-! ## Claim theorems: Overlap Resolver and Timeline Mixer -/

/-- Claim C1: on a clip list sorted ascending by start time, the Overlap
Resolver marks clip `i` for tempo adjustment exactly when
`start_ms[i] + duration_ms[i] > start_ms[i+1] + 100`, the target
`start_ms[i+1] - start_ms[i] - 50` exceeds `100`, and the capped factor
`min(duration_ms[i] / target, 2.0)` exceeds `1.0`; every adjusted clip gets a
factor in `(1, 2]`, every unadjusted clip keeps factor `1`, and for the two
clips at 0ms/1500ms and 1000ms/1000ms the factor applied to the first clip is
`min(1500/950, 2.0) = 30/19 ≈ 1.579`. -/
theorem overlap_resolver_marking (clips : List Clip)
    (_hsorted : clips.Pairwise (fun a b => a.start_ms ≤ b.start_ms))
    (i : ℕ) (h : i + 1 < clips.length) (c nx : Clip)
    (hc : clips.getD i ⟨0, 0⟩ = c) (hnx : clips.getD (i + 1) ⟨0, 0⟩ = nx) :
    (resolveFactors clips).getD i 1 = tempoFactor c nx ∧
    (needsAdjust c nx = true ↔
      (nx.start_ms + 100 < c.start_ms + c.duration_ms ∧
       100 < nx.start_ms - c.start_ms - 50 ∧
       1 < min (c.duration_ms / (nx.start_ms - c.start_ms - 50)) 2)) ∧
    (needsAdjust c nx = true → 1 < tempoFactor c nx ∧ tempoFactor c nx ≤ 2) ∧
    (needsAdjust c nx = false → tempoFactor c nx = 1) ∧
    (tempoFactor ⟨0, 1500⟩ ⟨1000, 1000⟩ = min ((1500 : ℚ) / 950) 2 ∧
     needsAdjust ⟨0, 1500⟩ ⟨1000, 1000⟩ = true ∧
     (1578 : ℚ) / 1000 < min ((1500 : ℚ) / 950) 2 ∧
     min ((1500 : ℚ) / 950) 2 < (1580 : ℚ) / 1000) := by
  refine ⟨?_, ?_, ?_, ?_, ?_⟩
  · rw [resolveFactors_getD clips i h, hc, hnx]
  · exact needsAdjust_iff c nx
  · intro hadj
    have hcond := (needsAdjust_iff c nx).mp hadj
    constructor
    · simp only [tempoFactor, hadj, if_true]
      simpa [rawFactor, adjTarget] using hcond.2.2
    · simp only [tempoFactor, hadj, if_true, rawFactor]
      exact min_le_right _ _
  · intro hnadj; simp [tempoFactor, hnadj]
  · have hadj : needsAdjust ⟨0, 1500⟩ ⟨1000, 1000⟩ = true := by
      norm_num [needsAdjust, adjTarget, rawFactor]
    have hmin : min ((1500 : ℚ) / 950) 2 = 1500 / 950 := min_eq_left (by norm_num)
    refine ⟨?_, hadj, ?_, ?_⟩
    · simp only [tempoFactor, hadj, if_true, rawFactor, adjTarget]
      norm_num
    · rw [hmin]; norm_num
    · rw [hmin]; norm_num

/-- Closed witness for `overlap_resolver_marking` at the spec's scenario. -/
theorem overlap_resolver_marking_witness :
    (resolveFactors [⟨0, 1500⟩, ⟨1000, 1000⟩]).getD 0 1 =
      tempoFactor ⟨0, 1500⟩ ⟨1000, 1000⟩ ∧
    (needsAdjust (⟨0, 1500⟩ : Clip) ⟨1000, 1000⟩ = true →
      1 < tempoFactor ⟨0, 1500⟩ ⟨1000, 1000⟩ ∧
      tempoFactor ⟨0, 1500⟩ ⟨1000, 1000⟩ ≤ 2) := by
  have h := overlap_resolver_marking [⟨0, 1500⟩, ⟨1000, 1000⟩]
    (by norm_num [List.pairwise_cons]) 0 (by norm_num) ⟨0, 1500⟩ ⟨1000, 1000⟩
    rfl rfl
  exact ⟨h.1, h.2.2.1⟩

/-- Claim C6: for a non-empty clip list sorted by `start_ms`, the sequential
mixer's output track is at least `start_ms + duration_ms` of every clip, in
particular of the last clip. -/
theorem mixer_duration_covers (clips : List (ℕ × ℕ)) (hne : clips ≠ [])
    (_hsorted : clips.Pairwise (fun a b => a.1 ≤ b.1)) :
    (∀ c ∈ clips, c.1 + c.2 ≤ mixDuration clips) ∧
    (clips.getLast hne).1 + (clips.getLast hne).2 ≤ mixDuration clips := by
  have h := (mixGo_ge clips 0).2
  exact ⟨h, h _ (List.getLast_mem hne)⟩

/-- Closed witness for `mixer_duration_covers` on the overlapping pair of the
spec's scenario. -/
theorem mixer_duration_covers_witness :
    (∀ c ∈ [((0 : ℕ), (1500 : ℕ)), (1000, 1000)],
        c.1 + c.2 ≤ mixDuration [(0, 1500), (1000, 1000)]) ∧
    1000 + 1000 ≤ mixDuration [((0 : ℕ), (1500 : ℕ)), (1000, 1000)] := by
  have h := mixer_duration_covers [(0, 1500), (1000, 1000)] (by decide)
    (by simp)
  exact ⟨h.1, h.2⟩

/-- Claim C10: in the sequential mixer, a clip whose start is at or behind
the cursor is appended in full at the cursor — no silence, no truncation —
shifting everything after it later; silence of `start_ms - cursor` is
inserted only when the start is strictly ahead of the cursor. -/
theorem mixer_overlap_policy (pos s d : ℕ) (rest : List (ℕ × ℕ)) :
    (s ≤ pos →
      mixGo pos ((s, d) :: rest) =
        ((mixGo (pos + d) rest).1, ⟨0, pos, d⟩ :: (mixGo (pos + d) rest).2)) ∧
    (pos < s →
      mixGo pos ((s, d) :: rest) =
        ((mixGo (s + d) rest).1, ⟨s - pos, s, d⟩ :: (mixGo (s + d) rest).2)) := by
  constructor
  · intro hle
    have : ¬ pos < s := by omega
    simp [mixGo, this]
  · intro hlt
    have h1 : pos + (s - pos) = s := by omega
    simp [mixGo, hlt, h1]

/-- Closed witness for `mixer_overlap_policy`: the second scenario clip starts
behind the cursor (1000 < 1500) and is appended at the cursor in full. -/
theorem mixer_overlap_policy_witness :
    mixGo 1500 [((1000 : ℕ), (1000 : ℕ))] = (2500, [⟨0, 1500, 1000⟩]) := by
  have h := (mixer_overlap_policy 1500 1000 1000 []).1 (by decide)
  simp only [mixGo] at h
  exact h

/-! ## Claim theorems: synthesis retry policy -/

/-- A successful attempt returns immediately after the (possible) backoff
sleep of this iteration. -/
lemma ttsGo_ok (outcome : ℕ → TtsOutcome) (jitter : ℕ → ℚ)
    (maxR fuel rc : ℕ) (h : outcome rc = TtsOutcome.ok) :
    ttsGo outcome jitter maxR fuel rc =
      (if rc = 0 then [] else [retryDelay jitter rc], Except.ok rc) := by
  unfold ttsGo
  rw [h]

/-- A non-retryable error propagates at once. -/
lemma ttsGo_fatal (outcome : ℕ → TtsOutcome) (jitter : ℕ → ℚ)
    (maxR fuel rc : ℕ) (msg : List Char) (h : outcome rc = TtsOutcome.err msg)
    (hr : isRetryableMsg msg = false) :
    ttsGo outcome jitter maxR fuel rc =
      (if rc = 0 then [] else [retryDelay jitter rc], Except.error msg) := by
  unfold ttsGo
  rw [h]
  simp [hr]

/-- A retryable error with the retry budget exhausted propagates. -/
lemma ttsGo_exhaust (outcome : ℕ → TtsOutcome) (jitter : ℕ → ℚ)
    (maxR fuel rc : ℕ) (msg : List Char) (h : outcome rc = TtsOutcome.err msg)
    (hr : isRetryableMsg msg = true) (hgt : maxR < rc + 1) :
    ttsGo outcome jitter maxR fuel rc =
      (if rc = 0 then [] else [retryDelay jitter rc], Except.error msg) := by
  unfold ttsGo
  rw [h]
  have : ¬ rc + 1 ≤ maxR := by omega
  simp [hr, this]

/-- A retryable error with budget left recurses into the next attempt. -/
lemma ttsGo_retry_step (outcome : ℕ → TtsOutcome) (jitter : ℕ → ℚ)
    (maxR f rc : ℕ) (msg : List Char) (h : outcome rc = TtsOutcome.err msg)
    (hr : isRetryableMsg msg = true) (hle : rc + 1 ≤ maxR) :
    ttsGo outcome jitter maxR (f + 1) rc =
      ((if rc = 0 then [] else [retryDelay jitter rc]) ++
          (ttsGo outcome jitter maxR f (rc + 1)).1,
        (ttsGo outcome jitter maxR f (rc + 1)).2) := by
  conv =>
    lhs
    unfold ttsGo
  rw [h]
  simp [hr, hle]

/-- Claim C5: a synthesis error whose message contains `503`, `timeout` or
`connection` (lower-cased) is retried up to the fixed maximum of 5 retries,
the sleep before the k-th retry being `1 * 2^(k-1)` seconds plus the sampled
jitter, which is bounded by half the base delay (`random() * 0.5 < 1/2`);
after the fifth retry the error propagates, any other error propagates
immediately with no retry, and a success stops the retrying. -/
theorem synthesis_retry_policy :
    (∀ (outcome : ℕ → TtsOutcome) (jitter : ℕ → ℚ) (msg : List Char),
      outcome 0 = TtsOutcome.err msg → isRetryableMsg msg = false →
      text_to_speech outcome jitter 5 = ([], Except.error msg)) ∧
    (∀ (outcome : ℕ → TtsOutcome) (jitter : ℕ → ℚ) (m : ℕ → List Char),
      (∀ k, k ≤ 5 → outcome k = TtsOutcome.err (m k)) →
      (∀ k, k ≤ 5 → isRetryableMsg (m k) = true) →
      text_to_speech outcome jitter 5 =
        ([1 * 2 ^ 0 + jitter 1, 1 * 2 ^ 1 + jitter 2, 1 * 2 ^ 2 + jitter 3,
          1 * 2 ^ 3 + jitter 4, 1 * 2 ^ 4 + jitter 5], Except.error (m 5))) ∧
    (∀ (jitter : ℕ → ℚ) (k : ℕ), 1 ≤ k →
      (∀ j, 0 ≤ jitter j ∧ jitter j < 1 / 2) →
      1 * 2 ^ (k - 1) ≤ retryDelay jitter k ∧
        retryDelay jitter k < 1 * 2 ^ (k - 1) + 1 / 2) ∧
    (∀ (outcome : ℕ → TtsOutcome) (jitter : ℕ → ℚ) (m : ℕ → List Char),
      (∀ k, k < 2 → outcome k = TtsOutcome.err (m k)) →
      (∀ k, k < 2 → isRetryableMsg (m k) = true) →
      outcome 2 = TtsOutcome.ok →
      text_to_speech outcome jitter 5 =
        ([1 * 2 ^ 0 + jitter 1, 1 * 2 ^ 1 + jitter 2], Except.ok 2)) := by
  refine ⟨?_, ?_, ?_, ?_⟩
  · intro outcome jitter msg h hr
    rw [text_to_speech, ttsGo_fatal outcome jitter 5 5 0 msg h hr]
    simp
  · intro outcome jitter m hout hrm
    rw [text_to_speech,
      ttsGo_retry_step outcome jitter 5 4 0 (m 0) (hout 0 (by norm_num))
        (hrm 0 (by norm_num)) (by norm_num),
      ttsGo_retry_step outcome jitter 5 3 1 (m 1) (hout 1 (by norm_num))
        (hrm 1 (by norm_num)) (by norm_num),
      ttsGo_retry_step outcome jitter 5 2 2 (m 2) (hout 2 (by norm_num))
        (hrm 2 (by norm_num)) (by norm_num),
      ttsGo_retry_step outcome jitter 5 1 3 (m 3) (hout 3 (by norm_num))
        (hrm 3 (by norm_num)) (by norm_num),
      ttsGo_retry_step outcome jitter 5 0 4 (m 4) (hout 4 (by norm_num))
        (hrm 4 (by norm_num)) (by norm_num),
      ttsGo_exhaust outcome jitter 5 0 5 (m 5) (hout 5 (by norm_num))
        (hrm 5 (by norm_num)) (by norm_num)]
    simp [retryDelay]
  · intro jitter k hk hj
    have h := hj k
    unfold retryDelay
    constructor
    · linarith [h.1]
    · linarith [h.2]
  · intro outcome jitter m hout hrm hok
    rw [text_to_speech,
      ttsGo_retry_step outcome jitter 5 4 0 (m 0) (hout 0 (by norm_num))
        (hrm 0 (by norm_num)) (by norm_num),
      ttsGo_retry_step outcome jitter 5 3 1 (m 1) (hout 1 (by norm_num))
        (hrm 1 (by norm_num)) (by norm_num),
      ttsGo_ok outcome jitter 5 3 2 hok]
    simp [retryDelay]

/-- Closed witness for `synthesis_retry_policy`: a `503`-class trace retried
five times with zero jitter, and a `ValueError`-style trace that propagates
immediately. -/
theorem synthesis_retry_policy_witness :
    text_to_speech (fun _ => TtsOutcome.err ( "503 server busy".toList ))
        (fun _ => 0) 5 =
      ([1 * 2 ^ 0 + 0, 1 * 2 ^ 1 + 0, 1 * 2 ^ 2 + 0, 1 * 2 ^ 3 + 0,
        1 * 2 ^ 4 + 0], Except.error ( "503 server busy".toList )) ∧
    text_to_speech (fun _ => TtsOutcome.err ( "bad voice".toList ))
        (fun _ => 0) 5 =
      ([], Except.error ( "bad voice".toList )) := by
  have h503 : isRetryableMsg ( "503 server busy".toList ) = true := by decide
  constructor
  · exact synthesis_retry_policy.2.1 (fun _ => TtsOutcome.err ( "503 server busy".toList ))
      (fun _ => 0) (fun _ => ( "503 server busy".toList ))
      (fun _ _ => rfl) (fun _ _ => h503)
  · exact synthesis_retry_policy.1 (fun _ => TtsOutcome.err ( "bad voice".toList ))
      (fun _ => 0) ( "bad voice".toList ) rfl (by decide)

/-! ## Claim theorems: per-batch translation failure isolation -/

/-- The string `"Error: " + str(e)` always trips the failure check. -/
lemma isFailureResult_error_string (e : String) :
    isFailureResult ("Error: " ++ e) = true := by
  unfold isFailureResult
  rw [List.isPrefixOf_iff_prefix]
  have h1 : ( "Error:".toList ) <+: ( "Error: ".toList ) := by decide
  have h2 : ( "Error: ".toList ) <+: ("Error: " ++ e).data := by
    rw [String.data_append]
    exact List.prefix_append _ _
  exact h1.trans h2

/-- The collection loop emits one entry per input result. -/
lemma translatedParagraphsGo_length (rs : List String) :
    ∀ k, (translatedParagraphsGo k rs).length = rs.length := by
  induction rs with
  | nil => intro k; simp [translatedParagraphsGo]
  | cons r rs ih => intro k; simp [translatedParagraphsGo, ih]

/-- Entry `i` of the collection loop output, relative to the start index. -/
lemma translatedParagraphsGo_getElem (rs : List String) :
    ∀ k i, (translatedParagraphsGo k rs)[i]? =
      rs[i]?.map fun r =>
        if isFailureResult r then failurePlaceholder (k + i) else r := by
  induction rs with
  | nil => intro k i; simp [translatedParagraphsGo]
  | cons r rs ih =>
    intro k i
    cases i with
    | zero => simp [translatedParagraphsGo]
    | succ j =>
      have e : k + 1 + j = k + (j + 1) := by omega
      simp [translatedParagraphsGo, ih (k + 1) j, e]

/-- When no successful translation content trips the failure check, the
surfaced `failed_count` is exactly the number of raised batch requests. -/
lemma failedCount_map_translate (outcomes : List (Except String String))
    (h : ∀ c, Except.ok c ∈ outcomes → isFailureResult (cleanTranslated c) = false) :
    failedCount (outcomes.map translate_batch) =
      (outcomes.filter isErrorOutcome).length := by
  induction outcomes with
  | nil => simp [failedCount]
  | cons o os ih =>
    have hos : ∀ c, Except.ok c ∈ os → isFailureResult (cleanTranslated c) = false :=
      fun c hc => h c (List.mem_cons_of_mem o hc)
    cases o with
    | error e =>
      simp [failedCount, translate_batch, isErrorOutcome,
        isFailureResult_error_string e, List.filter] at ih ⊢
      exact ih hos
    | ok c =>
      have hc : isFailureResult (cleanTranslated c) = false :=
        h c (List.mem_cons_self _ _)
      simp [failedCount, translate_batch, isErrorOutcome, hc, List.filter] at ih ⊢
      exact ih hos

/-- Claim C9: a failed translation batch does not disturb its siblings — the
output has exactly one entry per batch index in input order, a failed index
is replaced by the placeholder tagged with that index, a successful index
keeps its (cleaned) translation, and the failure count is surfaced. -/
theorem translation_failure_isolation (outcomes : List (Except String String)) :
    (translatedParagraphs (outcomes.map translate_batch)).length = outcomes.length ∧
    (∀ (i : ℕ) (e : String), outcomes[i]? = some (Except.error e) →
      (translatedParagraphs (outcomes.map translate_batch))[i]? =
        some (failurePlaceholder i)) ∧
    (∀ (i : ℕ) (c : String), outcomes[i]? = some (Except.ok c) →
      isFailureResult (cleanTranslated c) = false →
      (translatedParagraphs (outcomes.map translate_batch))[i]? =
        some (cleanTranslated c)) ∧
    ((∀ c, Except.ok c ∈ outcomes → isFailureResult (cleanTranslated c) = false) →
      failedCount (outcomes.map translate_batch) =
        (outcomes.filter isErrorOutcome).length) := by
  refine ⟨?_, ?_, ?_, failedCount_map_translate outcomes⟩
  · simp [translatedParagraphs, translatedParagraphsGo_length]
  · intro i e hi
    rw [translatedParagraphs, translatedParagraphsGo_getElem _ 0 i]
    simp only [List.getElem?_map, hi, Option.map_some]
    simp [translate_batch, isFailureResult_error_string e]
  · intro i c hi hclean
    rw [translatedParagraphs, translatedParagraphsGo_getElem _ 0 i]
    simp only [List.getElem?_map, hi, Option.map_some]
    simp [translate_batch, hclean]

/-- Closed witness for `translation_failure_isolation` on a three-batch run
whose middle batch raises. -/
theorem translation_failure_isolation_witness :
    (translatedParagraphs
        ([Except.ok "好", Except.error "boom", Except.ok "吗"].map translate_batch))[1]? =
      some (failurePlaceholder 1) ∧
    failedCount
        ([Except.ok "好", Except.error "boom", Except.ok "吗"].map translate_batch) =
      ([Except.ok "好", Except.error "boom",
        Except.ok ("吗" : String)].filter isErrorOutcome).length := by
  have h := translation_failure_isolation [Except.ok "好", Except.error "boom", Except.ok "吗"]
  have hclean : ∀ (c : String),
      Except.ok c ∈ [Except.ok "好", Except.error "boom", Except.ok "吗"] →
        isFailureResult (cleanTranslated c) = false := by
    intro c hc
    simp only [List.mem_cons, List.not_mem_nil, or_false] at hc
    rcases hc with h1 | h1 | h1
    · injection h1 with h1; subst h1; decide
    · exact absurd h1 (by simp)
    · injection h1 with h1; subst h1; decide
  exact ⟨h.2.1 1 "boom" rfl, h.2.2.2 hclean⟩

/-! ## Claim theorems: Batch Planner -/

lemma batchChars_append (b : List String) (p : String) :
    batchChars (b ++ [p]) = batchChars b + p.length := by
  simp [batchChars]

lemma batchStep_inv (segSize : ℕ) (hN : 1 ≤ segSize) (done : List String)
    (bs : BatchState) (p : String) (h : BatchInv segSize done bs) :
    BatchInv segSize (done ++ [p]) (batchStep segSize bs p) := by
  obtain ⟨hcc, hlen, hchar, hbat, hflat⟩ := h
  unfold batchStep
  by_cases hclose :
      segSize ≤ bs.current.length ∨ (2000 < bs.charCount + p.length ∧ bs.current ≠ [])
  · rw [if_pos hclose]
    refine ⟨by simp [batchChars], by simpa using hN, by simp, ?_, ?_⟩
    · intro b hb
      rcases List.mem_append.mp hb with hb | hb
      · exact hbat b hb
      · have hb' : b = bs.current := by simpa using hb
        refine ⟨hb' ▸ hlen, fun hgt => ?_⟩
        by_contra hne1
        have h2 : 2 ≤ b.length := by
          cases b with
          | nil => simp [batchChars] at hgt
          | cons x t =>
            cases t with
            | nil => simp at hne1
            | cons y t2 => simp
        have hle : bs.charCount ≤ 2000 := hchar (hb' ▸ h2)
        rw [hb', ← hcc] at hgt
        omega
    · show (bs.batches ++ [bs.current]).flatten ++ [p] = done ++ [p]
      have hfl : (bs.batches ++ [bs.current]).flatten =
          bs.batches.flatten ++ bs.current := by simp
      rw [hfl, hflat]
  · rw [if_neg hclose]
    push_neg at hclose
    obtain ⟨hlt, hover⟩ := hclose
    refine ⟨?_, ?_, ?_, hbat, ?_⟩
    · show bs.charCount + p.length = batchChars (bs.current ++ [p])
      rw [batchChars_append, hcc]
    · show (bs.current ++ [p]).length ≤ segSize
      simp only [List.length_append, List.length_cons, List.length_nil]
      omega
    · intro h2
      simp only [List.length_append, List.length_cons, List.length_nil] at h2
      have hne : bs.current ≠ [] := by
        intro he
        rw [he] at h2
        simp at h2
      have hle : bs.charCount + p.length ≤ 2000 := by
        by_contra hgt2
        push_neg at hgt2
        exact hne (hover hgt2)
      show bs.charCount + p.length ≤ 2000
      omega
    · show bs.batches.flatten ++ (bs.current ++ [p]) = done ++ [p]
      rw [← List.append_assoc, hflat]

lemma batchFold_inv (segSize : ℕ) (hN : 1 ≤ segSize) (paras : List String) :
    ∀ (done : List String) (bs : BatchState), BatchInv segSize done bs →
      BatchInv segSize (done ++ paras) (paras.foldl (batchStep segSize) bs) := by
  induction paras with
  | nil => intro done bs h; simpa using h
  | cons p ps ih =>
    intro done bs h
    have h1 := batchStep_inv segSize hN done bs p h
    have h2 := ih (done ++ [p]) (batchStep segSize bs p) h1
    simpa using h2

/-- Claim C2: with a sentence bound `N ≥ 1` and the fixed 2000-character
bound, no batch holds more than `N` sentences, a batch exceeds 2000
characters only if it holds exactly one sentence, and the batches
concatenate back to the input list in order. -/
theorem batch_planner_bounds (N : ℕ) (paras : List String) (hN : 1 ≤ N) :
    (∀ b ∈ planBatches N paras, b.length ≤ N) ∧
    (∀ b ∈ planBatches N paras, 2000 < batchChars b → b.length = 1) ∧
    (planBatches N paras).flatten = paras := by
  have hinit : BatchInv N [] ⟨[], [], 0⟩ := by
    refine ⟨by simp [batchChars], by simp, by simp, by simp, by simp⟩
  have h := batchFold_inv N hN paras [] ⟨[], [], 0⟩ hinit
  obtain ⟨hcc, hlen, hchar, hbat, hflat⟩ := h
  simp only [List.nil_append] at hflat
  unfold planBatches
  by_cases hcur : (paras.foldl (batchStep N) ⟨[], [], 0⟩).current ≠ []
  · rw [if_pos hcur]
    refine ⟨?_, ?_, ?_⟩
    · intro b hb
      rcases List.mem_append.mp hb with hb | hb
      · exact (hbat b hb).1
      · have hb' : b = (paras.foldl (batchStep N) ⟨[], [], 0⟩).current := by
          simpa using hb
        subst hb'
        exact hlen
    · intro b hb hgt
      rcases List.mem_append.mp hb with hb | hb
      · exact (hbat b hb).2 hgt
      · have hb' : b = (paras.foldl (batchStep N) ⟨[], [], 0⟩).current := by
          simpa using hb
        by_contra hne1
        have h2 : 2 ≤ b.length := by
          cases b with
          | nil => simp [batchChars] at hgt
          | cons x t =>
            cases t with
            | nil => simp at hne1
            | cons y t2 => simp
        have hle := hchar (hb' ▸ h2)
        rw [hb', ← hcc] at hgt
        omega
    · simp only [List.flatten_append, List.flatten_cons, List.flatten_nil,
        List.append_nil]
      exact hflat
  · rw [if_neg hcur]
    push_neg at hcur
    refine ⟨fun b hb => (hbat b hb).1, fun b hb => (hbat b hb).2, ?_⟩
    conv_rhs => rw [← hflat]
    rw [hcur]
    simp

/-- Closed witness for `batch_planner_bounds` at the default bound `N = 11`. -/
theorem batch_planner_bounds_witness :
    (∀ b ∈ planBatches 11 ["one.", "two."], b.length ≤ 11) ∧
    (planBatches 11 ["one.", "two."]).flatten = ["one.", "two."] := by
  have h := batch_planner_bounds 11 ["one.", "two."] (by norm_num)
  exact ⟨h.1, h.2.2⟩

/-! ## Claim theorems: Cue Segmenter -/

/-- Flushing always clears the pending words. -/
lemma flushSentence_currentWords (st : SegState) :
    (flushSentence st).currentWords = [] := by
  unfold flushSentence
  by_cases h : st.currentWords = [] <;> simp [h]

/-- Flushing moves the pending words into the sentence list without losing
any word. -/
lemma flushSentence_stateWords (st : SegState) :
    stateWords (flushSentence st) = stateWords st := by
  unfold flushSentence
  by_cases h : st.currentWords = [] <;> simp [h, stateWords]

/-- One token adds exactly its `tokenWords` to the state's words. -/
lemma processToken_stateWords (st : SegState) (tok : List Char) :
    stateWords (processToken st tok) = stateWords st ++ tokenWords tok := by
  by_cases hs : isTsSentinel tok = true
  · simp [processToken, tokenWords, hs, stateWords]
  · by_cases hw : trimWs tok = []
    · simp [processToken, tokenWords, hs, hw, stateWords]
    · by_cases hcs : st.currentStart.isNone <;>
        by_cases hse : isSentenceEnd (trimWs tok) = true <;>
          simp [processToken, tokenWords, hs, hw, hcs, hse, flushSentence,
            stateWords, List.append_assoc]

/-- Folding the token loop adds exactly the tokens' words. -/
lemma foldl_processToken_stateWords (toks : List (List Char)) :
    ∀ st : SegState, stateWords (toks.foldl processToken st) =
      stateWords st ++ (toks.map tokenWords).flatten := by
  induction toks with
  | nil => intro st; simp
  | cons t ts ih =>
    intro st
    simp only [List.foldl_cons, List.map_cons, List.flatten_cons]
    rw [ih (processToken st t), processToken_stateWords, List.append_assoc]

/-- One line adds exactly its `wordTokensOfLine` to the state's words. -/
lemma processLine_stateWords (st : SegState) (raw : List Char) :
    stateWords (processLine st raw) = stateWords st ++ wordTokensOfLine raw := by
  unfold processLine wordTokensOfLine
  cases h : parseCueHeader (stripChars bomCrLf raw) with
  | some ts => simp [h, stateWords]
  | none =>
    by_cases hs : tsSearch (stripChars bomCrLf raw) = true <;>
      simp [h, hs, foldl_processToken_stateWords]

/-- Folding the line loop adds exactly the lines' words. -/
lemma foldl_processLine_stateWords (lines : List (List Char)) :
    ∀ st : SegState, stateWords (lines.foldl processLine st) =
      stateWords st ++ (lines.map wordTokensOfLine).flatten := by
  induction lines with
  | nil => intro st; simp
  | cons l ls ih =>
    intro st
    simp only [List.foldl_cons, List.map_cons, List.flatten_cons]
    rw [ih (processLine st l), processLine_stateWords, List.append_assoc]

/-- Claim C3 (amended): the words of the emitted sentences are exactly, and
in order, the word tokens of the lines that carry a word-timestamp tag;
lines without a tag contribute nothing — even when a sentence is in
progress — and no processed word is ever dropped. -/
theorem segmenter_word_preservation (input : List Char) :
    ((segRun input).sentences.map Sentence.words).flatten =
      ((splitNl input).map wordTokensOfLine).flatten ∧
    (segRun input).currentWords = [] := by
  have h2 : (segRun input).currentWords = [] := flushSentence_currentWords _
  have h1 : stateWords (segRun input) =
      ((splitNl input).map wordTokensOfLine).flatten := by
    unfold segRun
    rw [flushSentence_stateWords, foldl_processLine_stateWords]
    simp [stateWords, initSegState]
  rw [stateWords, h2] at h1
  simp only [List.append_nil] at h1
  exact ⟨h1, h2⟩

/-- Counterexample to claim C3 as stated: the marker-less third line
`world.` continues an in-progress sentence, yet its word is dropped — the
only emitted sentence is `(00:00:00.500) Hello`, not
`(00:00:00.500) Hello world.`. -/
theorem markerless_continuation_dropped :
    vttSentencesStr "00:00:00.000 --> 00:00:02.000\n<00:00:00.500>Hello\nworld." =
      ["(00:00:00.500) Hello"] ∧
    vttSentencesStr "00:00:00.000 --> 00:00:02.000\n<00:00:00.500>Hello\nworld." ≠
      ["(00:00:00.500) Hello world."] := by
  constructor <;> decide

/-- Claim C8: at end of input the segmenter flushes any pending partial
sentence, choosing its start timestamp by the fallback order — recorded
first-word time, else last cue-header start, else last effective time, else
the zero default `00:00:00.000` — and emits nothing when no words are
pending. -/
theorem flush_fallback_timestamp (input : List Char) (st : SegState)
    (hst : (splitNl input).foldl processLine initSegState = st) :
    (st.currentWords = [] → segRun input = st) ∧
    (∀ w ws, st.currentWords = w :: ws →
      segRun input = { st with
        sentences := st.sentences ++
          [⟨(match st.currentStart, st.cueStart, st.effectiveTime with
             | some t, _, _ => t
             | none, some t, _ => t
             | none, none, some t => t
             | none, none, none => ( "00:00:00.000".toList )), w :: ws⟩]
        currentWords := []
        currentStart := none }) := by
  have hrun : segRun input = flushSentence st := by rw [segRun, hst]
  constructor
  · intro h
    rw [hrun]
    unfold flushSentence
    rw [if_pos h]
  · intro w ws h
    rw [hrun]
    obtain ⟨sents, cw, cstart, eff, cue⟩ := st
    simp only at h
    subst h
    cases cstart <;> cases cue <;> cases eff <;>
      simp [flushSentence, Option.orElse]

/-- Closed witness for `flush_fallback_timestamp`: a pending `Hi` is flushed
at end of input with the recorded first-word time. -/
theorem flush_fallback_timestamp_witness :
    segRun ( "00:00:00.000 --> 00:00:02.000\n<00:00:00.500>Hi".toList ) =
      ⟨[⟨ "00:00:00.500".toList, [ "Hi".toList ]⟩], [], none,
        some ( "00:00:00.500".toList ), some ( "00:00:00.000".toList )⟩ := by
  have h := (flush_fallback_timestamp
      ( "00:00:00.000 --> 00:00:02.000\n<00:00:00.500>Hi".toList )
      ⟨[], [ "Hi".toList ], some ( "00:00:00.500".toList ),
        some ( "00:00:00.500".toList ), some ( "00:00:00.000".toList )⟩
      (by decide)).2 ( "Hi".toList ) [] rfl
  exact h

/-- The source's terminal test, spelt out: the word's last character is `.`,
`!` or `?` — a comma is not a terminator. -/
lemma isSentenceEnd_iff (w : List Char) :
    isSentenceEnd w = true ↔
      (w.getLast? = some '.' ∨ w.getLast? = some '!' ∨ w.getLast? = some '?') := by
  unfold isSentenceEnd
  cases h : w.getLast? with
  | none => simp
  | some c =>
    simp only [Option.some.injEq]
    constructor
    · intro hb
      rcases Bool.or_eq_true_iff.mp hb with hb | hb
      · rcases Bool.or_eq_true_iff.mp hb with hb | hb
        · exact Or.inl (beq_iff_eq.mp hb)
        · exact Or.inr (Or.inl (beq_iff_eq.mp hb))
      · exact Or.inr (Or.inr (beq_iff_eq.mp hb))
    · rintro (rfl | rfl | rfl) <;> rfl

/-- Claim C7 (amended): a word token flushes the in-progress sentence exactly
when it ends with one of `.`, `!`, `?` (the source's `SENTENCE_END` — a comma
does not flush); a non-terminal word only extends the pending sentence; and
the spec's scenario yields exactly its two sentences. -/
theorem segmenter_flush_on_terminal :
    (∀ (st : SegState) (tok : List Char), isTsSentinel tok = false →
      trimWs tok ≠ [] →
      (((processToken st tok).currentWords = [] ∧
        (processToken st tok).sentences.map Sentence.words =
          st.sentences.map Sentence.words ++ [st.currentWords ++ [trimWs tok]]) ↔
        ((trimWs tok).getLast? = some '.' ∨ (trimWs tok).getLast? = some '!' ∨
          (trimWs tok).getLast? = some '?'))) ∧
    (∀ (st : SegState) (tok : List Char), isTsSentinel tok = false →
      trimWs tok ≠ [] → isSentenceEnd (trimWs tok) = false →
      (processToken st tok).sentences = st.sentences ∧
      (processToken st tok).currentWords = st.currentWords ++ [trimWs tok]) ∧
    vtt_to_sentences
        ( "00:00:00.000 --> 00:00:02.000\n<00:00:00.500>Hello. <00:00:01.200>World?".toList ) =
      [( "(00:00:00.500) Hello.".toList ), ( "(00:00:01.200) World?".toList )] := by
  refine ⟨?_, ?_, by decide⟩
  · intro st tok hs hw
    rw [← isSentenceEnd_iff]
    by_cases hse : isSentenceEnd (trimWs tok) = true
    · simp only [hse, iff_true]
      by_cases hcs : st.currentStart.isNone <;>
        simp [processToken, hs, hw, hcs, hse, flushSentence]
    · have hse' : isSentenceEnd (trimWs tok) = false := by
        simpa using hse
      rw [hse']
      simp only [Bool.false_eq_true, iff_false, not_and]
      intro hcw
      by_cases hcs : st.currentStart.isNone <;>
        simp [processToken, hs, hw, hcs, hse'] at hcw
  · intro st tok hs hw hse
    by_cases hcs : st.currentStart.isNone <;>
      simp [processToken, hs, hw, hcs, hse]

/-- Closed witness for `segmenter_flush_on_terminal`: the word `Hello.`
flushes the empty in-progress sentence. -/
theorem segmenter_flush_on_terminal_witness :
    (processToken initSegState ( "Hello.".toList )).currentWords = [] ∧
    (processToken initSegState ( "Hello.".toList )).sentences.map Sentence.words =
      initSegState.sentences.map Sentence.words ++
        [initSegState.currentWords ++ [trimWs ( "Hello.".toList )]] := by
  exact (segmenter_flush_on_terminal.1 initSegState ( "Hello.".toList )
    (by decide) (by decide)).mpr (by decide)

/-- Counterexample to claim C7 as stated: the claim's terminal set includes
the comma, but a comma-ending word does not flush — the cue stream with
`Hello,` and `world.` yields one sentence, not two. -/
theorem comma_does_not_flush :
    vttSentencesStr "00:00:00.000 --> 00:00:02.000\n<00:00:00.500>Hello, <00:00:01.200>world." =
      ["(00:00:00.500) Hello, world."] ∧
    isSentenceEnd ( "Hello,".toList ) = false := by
  constructor <;> decide

/-- A line that is neither a cue header nor carries a word-timestamp tag
leaves the segmenter state untouched. -/
lemma processLine_inert (st : SegState) (raw : List Char)
    (h1 : parseCueHeader (stripChars bomCrLf raw) = none)
    (h2 : tsSearch (stripChars bomCrLf raw) = false) :
    processLine st raw = st := by
  unfold processLine
  simp only [h1, h2]
  simp

/-- Folding over inert lines leaves the state untouched. -/
lemma foldl_processLine_inert (lines : List (List Char))
    (h : ∀ raw ∈ lines,
      parseCueHeader (stripChars bomCrLf raw) = none ∧
      tsSearch (stripChars bomCrLf raw) = false) :
    ∀ st : SegState, lines.foldl processLine st = st := by
  induction lines with
  | nil => intro st; rfl
  | cons l ls ih =>
    intro st
    have hl := h l (List.mem_cons_self _ _)
    rw [List.foldl_cons, processLine_inert st l hl.1 hl.2]
    exact ih (fun raw hr => h raw (List.mem_cons_of_mem _ hr)) st

/-- Any text all of whose lines are inert segments to the empty list. -/
lemma vtt_to_sentences_inert (text : List Char)
    (h : ∀ raw ∈ splitNl text,
      parseCueHeader (stripChars bomCrLf raw) = none ∧
      tsSearch (stripChars bomCrLf raw) = false) :
    vtt_to_sentences text = [] := by
  unfold vtt_to_sentences segRun
  rw [foldl_processLine_inert _ h initSegState]
  rfl

/-- Claim C4 (amended): re-running the Cue Segmenter on its own rendered
output is NOT idempotent — whenever the emitted lines carry no word-level
timestamp tag (every emitted line starts with `(...)`, not `<...>`), the
re-run ignores every line and returns the empty sentence list, which differs
from the original list as soon as that list is non-empty. -/
theorem resegmentation_yields_empty (input : List Char)
    (h : ∀ raw ∈ splitNl (renderOutput (vtt_to_sentences input)),
      parseCueHeader (stripChars bomCrLf raw) = none ∧
      tsSearch (stripChars bomCrLf raw) = false) :
    vtt_to_sentences (renderOutput (vtt_to_sentences input)) = [] ∧
    (vtt_to_sentences input ≠ [] →
      vtt_to_sentences (renderOutput (vtt_to_sentences input)) ≠
        vtt_to_sentences input) := by
  have hempty : vtt_to_sentences (renderOutput (vtt_to_sentences input)) = [] :=
    vtt_to_sentences_inert _ h
  refine ⟨hempty, fun hne => ?_⟩
  rw [hempty]
  exact fun heq => hne heq.symm

/-- Closed witness for `resegmentation_yields_empty` at the spec's scenario
stream. -/
theorem resegmentation_yields_empty_witness :
    vtt_to_sentences (renderOutput (vtt_to_sentences
        ( "00:00:00.000 --> 00:00:02.000\n<00:00:00.500>Hello. <00:00:01.200>World?".toList ))) = [] := by
  exact (resegmentation_yields_empty
    ( "00:00:00.000 --> 00:00:02.000\n<00:00:00.500>Hello. <00:00:01.200>World?".toList )
    (by decide)).1

/-- Counterexample to claim C4 as stated: on the spec's own scenario the
segmenter emits two sentences, but re-segmenting its rendered output emits
none — the round trip is not idempotent. -/
theorem resegmentation_not_idempotent :
    vtt_to_sentences (renderOutput (vtt_to_sentences
        ( "00:00:00.000 --> 00:00:02.000\n<00:00:00.500>Hello. <00:00:01.200>World?".toList ))) ≠
      vtt_to_sentences
        ( "00:00:00.000 --> 00:00:02.000\n<00:00:00.500>Hello. <00:00:01.200>World?".toList ) ∧
    vtt_to_sentences
        ( "00:00:00.000 --> 00:00:02.000\n<00:00:00.500>Hello. <00:00:01.200>World?".toList ) ≠ [] := by
  constructor <;> decide
